import Mathlib

/-!
Verification of the operator-data extraction pipeline of
src/fetchOperators.js: a shallow embedding of the field extractor, the
page parser, the listing crawler and the orchestrator, together with
proofs of the documented properties.

Strings are modelled over their character lists, and the handful of
JavaScript string primitives the code uses (trim, toLowerCase, includes,
startsWith, endsWith, replace-first, the three regexes) are re-implemented
as structural functions so that every definition evaluates on concrete
inputs.
-/

set_option maxRecDepth 20000
set_option maxHeartbeats 2000000

/-- A JavaScript runtime value as it can appear in a field of the scraped
operator record: a string, a (natural) number, undefined, or null. -/
inductive JSVal where
  | str (s : String)
  | num (n : Nat)
  | undefined
  | nullv
  deriving DecidableEq

/-- Truthiness of a JavaScript value: the empty string, the number 0,
undefined and null are falsy. -/
def jsTruthy : JSVal → Bool
  | .str s => s != ""
  | .num n => n != 0
  | .undefined => false
  | .nullv => false

/-- JavaScript whitespace, as matched by the whitespace regex class and by
String.prototype.trim on the character repertoire of the scraped pages. -/
def isJsWs (c : Char) : Bool :=
  c == ' ' || c == '\t' || c == '\n' || c == '\r' || c == '\x0b' || c == '\x0c'

/-- JavaScript String.prototype.trim. -/
def jsTrim (s : String) : String :=
  String.mk (((s.toList.dropWhile isJsWs).reverse.dropWhile isJsWs).reverse)

/-- Lower-casing of one character (the labels compared by the code are
ASCII, so the ASCII case map suffices). -/
def jsToLowerChar (c : Char) : Char :=
  if 'A' ≤ c && c ≤ 'Z' then Char.ofNat (c.toNat + 32) else c

/-- JavaScript String.prototype.toLowerCase. -/
def jsToLower (s : String) : String :=
  String.mk (s.toList.map jsToLowerChar)

/-- Helper for substring containment: the pattern is a prefix of some
suffix of the haystack. -/
def infixOfAux (p : List Char) : List Char → Bool
  | [] => p.isEmpty
  | c :: rest => p.isPrefixOf (c :: rest) || infixOfAux p rest

/-- JavaScript a.includes(b). -/
def jsIncludes (a b : String) : Bool :=
  infixOfAux b.toList a.toList

/-- JavaScript a.startsWith(b). -/
def jsStartsWith (a b : String) : Bool :=
  b.toList.isPrefixOf a.toList

/-- JavaScript a.endsWith(b). -/
def jsEndsWith (a b : String) : Bool :=
  b.toList.isSuffixOf a.toList

/-- JavaScript a || b on strings: the empty string is falsy. -/
def strOr (a b : String) : String :=
  if a != "" then a else b

/-- JavaScript v || w on runtime values. -/
def jsOr (v w : JSVal) : JSVal :=
  if jsTruthy v then v else w

/-- One pass of the whitespace-collapsing replace of the tidy helper:
every maximal whitespace run becomes one space.  The boolean records
whether the previous character was part of a whitespace run. -/
def collapseWsAux : List Char → Bool → List Char
  | [], _ => []
  | c :: rest, prevWs =>
    if isJsWs c then
      if prevWs then collapseWsAux rest true
      else ' ' :: collapseWsAux rest true
    else c :: collapseWsAux rest false

/-- The replace of all whitespace runs by single spaces (line 146). -/
def collapseWs (s : String) : String :=
  String.mk (collapseWsAux s.toList false)

/-- The tidy helper of parseOperatorPage (line 146): a falsy value maps to
the empty string, a non-empty string has its whitespace runs collapsed and
its ends trimmed.  Only strings and undefined ever reach tidy. -/
def tidy : JSVal → JSVal
  | .str s => if s != "" then .str (jsTrim (collapseWs s)) else .str ""
  | _ => .str ""

/-- A portable-infobox key/value row (div.pi-data): the text of its label
descendant and the text of its value descendant; cheerio text() returns
the empty string when a node is absent. -/
structure PiData where
  labelText : String
  valueText : String
  deriving DecidableEq

/-- A pi-data-label element together with the text of its next sibling
restricted to pi-data-value (an empty selection has text ""). -/
structure PiLabel where
  labelText : String
  nextValueText : String
  deriving DecidableEq

/-- A table header cell and the text of the adjacent td of the same row,
when such a td exists. -/
structure ThCell where
  text : String
  nextTd : Option String
  deriving DecidableEq

/-- A leaf element (no child elements) and the text of its next sibling
element, when present. -/
structure LeafElem where
  text : String
  nextSiblingText : Option String
  deriving DecidableEq

/-- The parts of a parsed HTML document that extractField queries. -/
structure Document where
  piData : List PiData
  piLabels : List PiLabel
  thCells : List ThCell
  leaves : List LeafElem
  deriving DecidableEq

/-- textMatches (lines 36-39): false on a falsy text, otherwise
case-insensitive containment after trimming the candidate. -/
def textMatches (a b : String) : Bool :=
  if a == "" then false
  else jsIncludes (jsToLower (jsTrim a)) (jsToLower b)

/-- Strategy 1 of extractField (lines 48-56): first pi-data row whose
truthy label text equals the label case-insensitively after trimming; its
value text, trimmed. -/
def strategy1 (d : Document) (label : String) : String :=
  match d.piData.find? (fun pd =>
      pd.labelText != "" && jsToLower (jsTrim pd.labelText) == jsToLower label) with
  | some pd => jsTrim pd.valueText
  | none => ""

/-- Strategy 2 of extractField (lines 58-65): first pi-data-label whose
trimmed text equals the label case-insensitively; the text of its next
pi-data-value sibling, trimmed. -/
def strategy2 (d : Document) (label : String) : String :=
  match d.piLabels.find? (fun pl =>
      jsToLower (jsTrim pl.labelText) == jsToLower label) with
  | some pl => jsTrim pl.nextValueText
  | none => ""

/-- Strategy 3 of extractField (lines 67-75): first th matching the label
by textMatches; the trimmed text of the adjacent td, when present. -/
def strategy3 (d : Document) (label : String) : String :=
  match d.thCells.find? (fun th => textMatches th.text label) with
  | some th =>
    match th.nextTd with
    | some td => jsTrim td
    | none => ""
  | none => ""

/-- Strategy 4 of extractField (lines 77-87): first leaf element that
contains the label (the contains selector is case-sensitive) and whose
trimmed text equals the label case-insensitively; the trimmed text of its
next sibling, when present. -/
def strategy4 (d : Document) (label : String) : String :=
  match d.leaves.find? (fun lf =>
      jsIncludes lf.text label &&
        jsToLower (jsTrim lf.text) == jsToLower label) with
  | some lf =>
    match lf.nextSiblingText with
    | some t => jsTrim t
    | none => ""
  | none => ""

/-- extractField (lines 47-90): cascade over the four strategies, first
non-empty result wins, empty string when every strategy fails. -/
def extractField (d : Document) (label : String) : String :=
  let v1 := strategy1 d label
  if v1 != "" then v1
  else
    let v2 := strategy2 d label
    if v2 != "" then v2
    else
      let v3 := strategy3 d label
      if v3 != "" then v3
      else
        let v4 := strategy4 d label
        if v4 != "" then v4
        else ""

/-- Match of the ISO date regex (four digits, dash, two digits, dash, two
digits) anchored at the head of the character list. -/
def isoAt : List Char → Option String
  | a :: b :: c :: d :: e :: f :: g :: h :: i :: j :: _ =>
    if a.isDigit && b.isDigit && c.isDigit && d.isDigit && e == '-'
        && f.isDigit && g.isDigit && h == '-' && i.isDigit && j.isDigit then
      some (String.mk [a, b, c, d, e, f, g, h, i, j])
    else none
  | _ => none

/-- Leftmost match of the ISO date regex. -/
def findIsoAux : List Char → Option String
  | [] => none
  | c :: rest =>
    match isoAt (c :: rest) with
    | some m => some m
    | none => findIsoAux rest

/-- The releaseRaw.match on the ISO date regex (line 133). -/
def findIso (s : String) : Option String :=
  findIsoAux s.toList

/-- Match of the four-digit year regex anchored at the head. -/
def yearAt : List Char → Option String
  | a :: b :: c :: d :: _ =>
    if a.isDigit && b.isDigit && c.isDigit && d.isDigit then
      some (String.mk [a, b, c, d])
    else none
  | _ => none

/-- Leftmost match of the four-digit year regex. -/
def findYearAux : List Char → Option String
  | [] => none
  | c :: rest =>
    match yearAt (c :: rest) with
    | some m => some m
    | none => findYearAux rest

/-- The releaseRaw.match on the bare year regex (line 136). -/
def findYear (s : String) : Option String :=
  findYearAux s.toList

/-- Leftmost match of the one-or-more-digits regex. -/
def findDigitsAux : List Char → Option (List Char)
  | [] => none
  | c :: rest =>
    if c.isDigit then some (c :: rest.takeWhile Char.isDigit)
    else findDigitsAux rest

/-- Numeric value of a digit run, as JavaScript Number reads it. -/
def digitsToNat (l : List Char) : Nat :=
  l.foldl (fun acc c => acc * 10 + (c.toNat - 48)) 0

/-- Removal of the first occurrence of a pattern from a character list. -/
def removeFirstAux (pat : List Char) : List Char → List Char
  | [] => []
  | c :: rest =>
    if pat.isPrefixOf (c :: rest) then (c :: rest).drop pat.length
    else c :: removeFirstAux pat rest

/-- JavaScript s.replace(pat, "") for a plain string pattern: only the
first occurrence is removed; an empty pattern leaves s unchanged. -/
def removeFirst (s pat : String) : String :=
  String.mk (removeFirstAux pat.toList s.toList)

/-- Release parsing of parseOperatorPage (lines 128-143): date_global from
an ISO date substring, else a bare year, else empty; event_name is the raw
text with the date removed and trimmed, falling back to the raw text when
that removal trims to nothing. -/
def parseRelease (releaseRaw : String) : String × String :=
  if releaseRaw != "" then
    let date_global :=
      match findIso releaseRaw with
      | some m => m
      | none =>
        match findYear releaseRaw with
        | some y => y
        | none => ""
    let en := jsTrim (removeFirst releaseRaw date_global)
    let event_name := if en == "" then releaseRaw else en
    (date_global, event_name)
  else ("", "")

/-- Rarity computation (line 117): the count of star glyphs when non-zero,
else the value of the first embedded digit run when one exists, else the
empty string. -/
def rarityOfRaw (raw : String) : JSVal :=
  let stars := raw.toList.count '★'
  if stars != 0 then .num stars
  else
    match findDigitsAux raw.toList with
    | some ds => .num (digitsToNat ds)
    | none => .str ""

/-- Image URL normalization (lines 109-110 and 112-113): a truthy string
starting with two slashes gets the https scheme prefixed; a truthy string
still starting with a single slash gets the site origin prefixed. -/
def normalizeImg (s : String) : String :=
  let s1 := if s != "" && jsStartsWith s "//" then "https:" ++ s else s
  if s1 != "" && jsStartsWith s1 "/" then "https://arknights.wiki.gg" ++ s1 else s1

/-- The same normalization on a possibly-undefined attribute value: the
truthiness guards leave undefined unchanged. -/
def normalizeImgVal : JSVal → JSVal
  | .str s => .str (normalizeImg s)
  | v => v

/-- The release sub-object of an operator record. -/
structure ReleaseInfo where
  date_global : JSVal
  event_name : JSVal
  deriving DecidableEq

/-- The image sub-object of an operator record. -/
structure ImageInfo where
  portrait : JSVal
  full : JSVal
  deriving DecidableEq

/-- One operator record as built at lines 148-160.  The JavaScript field
class is spelled className here because class is a Lean keyword. -/
structure OpRecord where
  name : JSVal
  gender : JSVal
  rarity : JSVal
  className : JSVal
  archetype : JSVal
  faction : JSVal
  race : JSVal
  region : JSVal
  release : ReleaseInfo
  image : ImageInfo
  source : JSVal
  deriving DecidableEq

/-- The pieces of an operator page that parseOperatorPage reads.  An attr
result is an Option String, none standing for a missing attribute; piImage
is none when no infobox img element exists at all. -/
structure Page where
  firstHeading : String
  piTitle : String
  ogImage : Option String
  piImage : Option (Option String)
  doc : Document
  deriving DecidableEq

/-- The name binding of line 98: primary heading text with the infobox
title as fallback. -/
def recordNameOf (pg : Page) : String :=
  strOr (jsTrim pg.firstHeading) (jsTrim pg.piTitle)

/-- The fullImage binding of line 101: og-image content attribute or "". -/
def fullImage0Of (og : Option String) : String :=
  match og with
  | some s => s
  | none => ""

/-- The portrait binding of lines 104-106: the src attribute of the first
infobox image when the element exists (possibly undefined), else "". -/
def portrait0Of (pi : Option (Option String)) : JSVal :=
  match pi with
  | none => .str ""
  | some (some s) => .str s
  | some none => .undefined

/-- The rarityRaw binding of line 116. -/
def rarityRawOf (d : Document) : String :=
  strOr (extractField d "Rarity")
    (strOr (extractField d "Rarity/Stars") (extractField d "Star"))

/-- The releaseRaw binding of line 127. -/
def releaseRawOf (d : Document) : String :=
  strOr (strOr (strOr (strOr (extractField d "Released")
    (extractField d "Release")) (extractField d "Release Date"))
    (extractField d "Recruitment")) ""

/-- The successful body of parseOperatorPage (lines 95-160): the record
built from one fetched page. -/
def buildRecord (pg : Page) (opUrl : String) : OpRecord :=
  {
    name := tidy (.str (recordNameOf pg))
    gender := tidy (.str (strOr (strOr (extractField pg.doc "Gender")
      (extractField pg.doc "Sex")) ""))
    rarity := jsOr (rarityOfRaw (rarityRawOf pg.doc)) (.str "")
    className := tidy (.str (strOr (strOr (extractField pg.doc "Class")
      (extractField pg.doc "Role")) ""))
    archetype := tidy (.str (strOr (strOr (extractField pg.doc "Archetype")
      (extractField pg.doc "Type")) ""))
    faction := tidy (.str (strOr (strOr (extractField pg.doc "Faction")
      (extractField pg.doc "Affiliation")) ""))
    race := tidy (.str (strOr (extractField pg.doc "Race") ""))
    region := tidy (.str (strOr (strOr (extractField pg.doc "Region")
      (extractField pg.doc "Origin")) ""))
    release := { date_global := tidy (.str (parseRelease (releaseRawOf pg.doc)).1)
                 event_name := tidy (.str (parseRelease (releaseRawOf pg.doc)).2) }
    image := { portrait := tidy (normalizeImgVal (portrait0Of pg.piImage))
               full := tidy (.str (normalizeImg (fullImage0Of pg.ogImage))) }
    source := .str opUrl
  }

/-- parseOperatorPage (lines 92-165).  The page fetch is a parameter; a
fetch that throws is modelled as a none result, which the catch block
(lines 161-164) turns into a null record. -/
def parseOperatorPage (fetch : String → Option Page) (opUrl : String) :
    Option OpRecord :=
  match fetch opUrl with
  | none => none
  | some pg => some (buildRecord pg opUrl)

/-- One anchor element inside the content region of a listing page: its
href attribute and its visible text. -/
structure Link where
  href : Option String
  text : String
  deriving DecidableEq

/-- The parts of a listing page that fetchOperatorLinksFromListing reads. -/
structure ListingPage where
  contentLinks : List Link
  deriving DecidableEq

/-- Resolution of a root-relative href against the site base, as the URL
constructor produces it for hrefs that start with a slash (line 178). -/
def resolveWikiUrl (h : String) : String :=
  "https://arknights.wiki.gg" ++ h

/-- JavaScript Set insertion: append when not already present, so that
iteration order is insertion order. -/
def setAdd (l : List String) (u : String) : List String :=
  if l.contains u then l else l ++ [u]

/-- The regex that skips listing pages (line 187): href ends in Operator,
optionally followed by a final s. -/
def matchesOperatorSuffix (h : String) : Bool :=
  jsEndsWith h "Operator" || jsEndsWith h "Operators"

/-- The letter test of line 191: at least one Latin or Latin-extended
letter in the text. -/
def hasLatinLetter (t : String) : Bool :=
  t.toList.any (fun c =>
    ('A' ≤ c && c ≤ 'Z') || ('a' ≤ c && c ≤ 'z') ||
      (0xC0 ≤ c.toNat && c.toNat ≤ 0x24F))

/-- The href of a link, with the empty string for a missing attribute. -/
def linkHref (lnk : Link) : String :=
  match lnk.href with
  | some h => h
  | none => ""

/-- The first selector pass (lines 176-179): links whose href starts with
the operator path prefix and contains no namespace separator. -/
def pass1Accept (lnk : Link) : Bool :=
  match lnk.href with
  | some h => jsStartsWith h "/wiki/Operator" && !(jsIncludes h ":")
  | none => false

/-- The fallback pass (lines 182-194): wiki-path links with no namespace
separator, whose href does not match the listing-page regex, and whose
trimmed text is non-empty, shorter than 40 characters and contains a
letter. -/
def pass2Accept (lnk : Link) : Bool :=
  match lnk.href with
  | some h =>
    jsStartsWith h "/wiki/" && !(jsIncludes h ":") && !(matchesOperatorSuffix h) &&
      (let txt := jsTrim lnk.text
       txt != "" && txt.length < 40 && hasLatinLetter txt)
  | none => false

/-- fetchOperatorLinksFromListing (lines 167-197): both passes add the
accepted hrefs, resolved to absolute URLs, to one insertion-ordered set. -/
def fetchOperatorLinksFromListing (pg : ListingPage) : List String :=
  let s1 := pg.contentLinks.foldl
    (fun acc lnk =>
      if pass1Accept lnk then setAdd acc (resolveWikiUrl (linkHref lnk)) else acc)
    []
  pg.contentLinks.foldl
    (fun acc lnk =>
      if pass2Accept lnk then setAdd acc (resolveWikiUrl (linkHref lnk)) else acc)
    s1

/-- One step of the dedup fold of lines 230-233: skip a record with a
falsy name, skip a record whose name is already a key, append otherwise. -/
def dedupeStep (acc : List OpRecord) (o : OpRecord) : List OpRecord :=
  if !(jsTruthy o.name) then acc
  else if acc.any (fun p => p.name == o.name) then acc
  else acc ++ [o]

/-- Dedup by name (lines 229-233): fold the parsed records into an
insertion-ordered name-keyed map, skipping falsy names; the first
occurrence of each name wins.  The list is the map's value sequence. -/
def dedupeByName (ops : List OpRecord) : List OpRecord :=
  ops.foldl dedupeStep []

/-- Name of a record as the string the sort comparator reads; every name
reaching the sort is a string produced by tidy. -/
def nameStr : JSVal → String
  | .str s => s
  | _ => ""

/-- The URL sort of line 216: the default Array sort compares strings
lexicographically. -/
def sortedUrls (urlSet : List String) : List String :=
  urlSet.mergeSort (fun a b => decide (a ≤ b))

/-- The parse loop of lines 219-226: each URL in sorted order is parsed
and null results are dropped. -/
def pipelineOperators (fetch : String → Option Page) (urlSet : List String) :
    List OpRecord :=
  (sortedUrls urlSet).filterMap (parseOperatorPage fetch)

/-- The final stages of main (lines 216-234): sort the URL set, parse each
page, drop nulls, dedup by name, and sort by name with the locale
comparator cmp (a negative-zero-positive three-way comparison). -/
def runPipeline (cmp : String → String → Int) (fetch : String → Option Page)
    (urlSet : List String) : List OpRecord :=
  (dedupeByName (pipelineOperators fetch urlSet)).mergeSort
    (fun a b => decide (cmp (nameStr a.name) (nameStr b.name) ≤ 0))

/-- A document with no queried elements at all. -/
def emptyDoc : Document :=
  { piData := [], piLabels := [], thCells := [], leaves := [] }

/-- A page whose infobox carries exactly one key/value row. -/
def onePiPage (heading label value : String) : Page :=
  { firstHeading := heading
    piTitle := ""
    ogImage := none
    piImage := none
    doc := { piData := [{ labelText := label, valueText := value }]
             piLabels := [], thCells := [], leaves := [] } }

/-- A field value is a proper string. -/
abbrev isStr (v : JSVal) : Prop := ∃ s, v = JSVal.str s

theorem tidy_isStr (v : JSVal) : ∃ s, tidy v = JSVal.str s := by
  cases v with
  | str s =>
    by_cases h : s = ""
    · exact ⟨"", by simp [tidy, h]⟩
    · exact ⟨jsTrim (collapseWs s), by simp [tidy, h]⟩
  | num n => exact ⟨"", rfl⟩
  | undefined => exact ⟨"", rfl⟩
  | nullv => exact ⟨"", rfl⟩

theorem jsOr_rarity (raw : String) :
    (∃ n, n ≠ 0 ∧ jsOr (rarityOfRaw raw) (JSVal.str "") = JSVal.num n) ∨
      jsOr (rarityOfRaw raw) (JSVal.str "") = JSVal.str "" := by
  by_cases h1 : raw.toList.count '★' = 0
  · simp only [String.toList] at h1
    cases h2 : findDigitsAux raw.data with
    | none => right; simp [rarityOfRaw, String.toList, h1, h2, jsOr, jsTruthy]
    | some ds =>
      by_cases h3 : digitsToNat ds = 0
      · right; simp [rarityOfRaw, String.toList, h1, h2, h3, jsOr, jsTruthy]
      · left
        exact ⟨digitsToNat ds, h3,
          by simp [rarityOfRaw, String.toList, h1, h2, h3, jsOr, jsTruthy]⟩
  · simp only [String.toList] at h1
    left
    exact ⟨raw.toList.count '★', by simpa [String.toList] using h1,
      by simp [rarityOfRaw, String.toList, h1, jsOr, jsTruthy]⟩

/-- C1: every record the page parser returns (it returns null only on a
failed fetch) has all declared fields present and never undefined or null:
name, gender, class, archetype, faction, race, region, the release and
image sub-fields are strings (empty when unrecoverable), rarity is either
a non-zero number or the empty string, and source is the page URL. -/
theorem c1_record_fields_present (fetch : String → Option Page) (url : String)
    (r : OpRecord) (h : parseOperatorPage fetch url = some r) :
    isStr r.name ∧ isStr r.gender ∧ isStr r.className ∧ isStr r.archetype ∧
      isStr r.faction ∧ isStr r.race ∧ isStr r.region ∧
      isStr r.release.date_global ∧ isStr r.release.event_name ∧
      isStr r.image.portrait ∧ isStr r.image.full ∧
      ((∃ n, n ≠ 0 ∧ r.rarity = JSVal.num n) ∨ r.rarity = JSVal.str "") ∧
      r.source = JSVal.str url := by
  cases hf : fetch url with
  | none => simp [parseOperatorPage, hf] at h
  | some pg =>
    simp only [parseOperatorPage, hf, Option.some.injEq] at h
    subst h
    simp only [buildRecord]
    exact ⟨tidy_isStr _, tidy_isStr _, tidy_isStr _, tidy_isStr _, tidy_isStr _,
      tidy_isStr _, tidy_isStr _, tidy_isStr _, tidy_isStr _, tidy_isStr _,
      tidy_isStr _, jsOr_rarity _, trivial⟩

/-- Input page whose only structured field is a name heading. -/
def pageA : Page :=
  { firstHeading := "A", piTitle := "", ogImage := none, piImage := none
    doc := emptyDoc }

/-- Fetch that always returns the minimal page. -/
def fetchA : String → Option Page := fun _ => some pageA

/-- The record the parser produces from the minimal page at URL u. -/
def recA : OpRecord :=
  { name := JSVal.str "A", gender := JSVal.str "", rarity := JSVal.str ""
    className := JSVal.str "", archetype := JSVal.str "", faction := JSVal.str ""
    race := JSVal.str "", region := JSVal.str ""
    release := { date_global := JSVal.str "", event_name := JSVal.str "" }
    image := { portrait := JSVal.str "", full := JSVal.str "" }
    source := JSVal.str "u" }

theorem c1_record_fields_present_witness :
    parseOperatorPage fetchA "u" = some recA ∧
      (isStr recA.name ∧ isStr recA.gender ∧ isStr recA.className ∧
        isStr recA.archetype ∧ isStr recA.faction ∧ isStr recA.race ∧
        isStr recA.region ∧ isStr recA.release.date_global ∧
        isStr recA.release.event_name ∧ isStr recA.image.portrait ∧
        isStr recA.image.full ∧
        ((∃ n, n ≠ 0 ∧ recA.rarity = JSVal.num n) ∨ recA.rarity = JSVal.str "") ∧
        recA.source = JSVal.str "u") :=
  ⟨by decide, c1_record_fields_present fetchA "u" recA (by decide)⟩

/-- C6: the extraction cascade short-circuits: a non-empty strategy 1
result is returned unchanged, whatever strategies 2 to 4 would say, and
when all four strategies fail the extractor returns the empty string. -/
theorem c6_cascade_short_circuits (d : Document) (label : String) :
    (strategy1 d label ≠ "" → extractField d label = strategy1 d label) ∧
    (strategy1 d label = "" → strategy2 d label = "" → strategy3 d label = "" →
      strategy4 d label = "" → extractField d label = "") := by
  constructor
  · intro h1
    simp [extractField, h1]
  · intro h1 h2 h3 h4
    simp [extractField, h1, h2, h3, h4]

/-- A document rigged so that only strategy 1 holds the correct value and
strategies 2 to 4 hold different, wrong values. -/
def rigDoc : Document :=
  { piData := [{ labelText := "Power", valueText := "right" }]
    piLabels := [{ labelText := "Power", nextValueText := "wrong2" }]
    thCells := [{ text := "Power", nextTd := some "wrong3" }]
    leaves := [{ text := "Power", nextSiblingText := some "wrong4" }] }

theorem c6_cascade_short_circuits_witness :
    strategy1 rigDoc "Power" ≠ "" ∧
      extractField rigDoc "Power" = strategy1 rigDoc "Power" ∧
      strategy1 rigDoc "Power" = "right" ∧ strategy2 rigDoc "Power" = "wrong2" ∧
      strategy3 rigDoc "Power" = "wrong3" ∧ strategy4 rigDoc "Power" = "wrong4" :=
  ⟨by decide, (c6_cascade_short_circuits rigDoc "Power").1 (by decide),
    by decide, by decide, by decide, by decide⟩

/-- C10: the rarity field of a parsed record is never the number 0: it is
a non-zero number or the empty string; a raw rarity text with no star
glyph whose first digit run reads 0, and a missing rarity text, both store
the empty-string sentinel. -/
theorem c10_rarity_never_zero (fetch : String → Option Page) (url : String)
    (r : OpRecord) (h : parseOperatorPage fetch url = some r) :
    r.rarity ≠ JSVal.num 0 ∧
      ((∃ n, n ≠ 0 ∧ r.rarity = JSVal.num n) ∨ r.rarity = JSVal.str "") ∧
      (∀ raw ds, raw.toList.count '★' = 0 → findDigitsAux raw.toList = some ds →
        digitsToNat ds = 0 → jsOr (rarityOfRaw raw) (JSVal.str "") = JSVal.str "") ∧
      jsOr (rarityOfRaw "") (JSVal.str "") = JSVal.str "" := by
  have hr : (∃ n, n ≠ 0 ∧ r.rarity = JSVal.num n) ∨ r.rarity = JSVal.str "" := by
    cases hf : fetch url with
    | none => simp [parseOperatorPage, hf] at h
    | some pg =>
      simp only [parseOperatorPage, hf, Option.some.injEq] at h
      subst h
      exact jsOr_rarity _
  refine ⟨?_, hr, ?_, by decide⟩
  · rcases hr with ⟨n, hn, he⟩ | he
    · rw [he]
      intro hc
      exact hn (JSVal.num.injEq n 0 ▸ congrArg (fun v => v) hc ▸ rfl)
    · rw [he]
      intro hc
      exact JSVal.noConfusion hc
  · intro raw ds hcount hds hzero
    simp only [String.toList] at hcount hds
    simp [rarityOfRaw, String.toList, hcount, hds, hzero, jsOr, jsTruthy]

/-- Fetch returning a page whose rarity text is the digit 0. -/
def fetchR0 : String → Option Page := fun _ => some (onePiPage "A" "Rarity" "0")

/-- The record parsed from the rarity-0 page. -/
def recR0 : OpRecord :=
  { name := JSVal.str "A", gender := JSVal.str "", rarity := JSVal.str ""
    className := JSVal.str "", archetype := JSVal.str "", faction := JSVal.str ""
    race := JSVal.str "", region := JSVal.str ""
    release := { date_global := JSVal.str "", event_name := JSVal.str "" }
    image := { portrait := JSVal.str "", full := JSVal.str "" }
    source := JSVal.str "u" }

theorem c10_rarity_never_zero_witness :
    parseOperatorPage fetchR0 "u" = some recR0 ∧
      (recR0.rarity ≠ JSVal.num 0 ∧
        ((∃ n, n ≠ 0 ∧ recR0.rarity = JSVal.num n) ∨ recR0.rarity = JSVal.str "") ∧
        (∀ raw ds, raw.toList.count '★' = 0 → findDigitsAux raw.toList = some ds →
          digitsToNat ds = 0 → jsOr (rarityOfRaw raw) (JSVal.str "") = JSVal.str "") ∧
        jsOr (rarityOfRaw "") (JSVal.str "") = JSVal.str "") :=
  ⟨by decide, c10_rarity_never_zero fetchR0 "u" recR0 (by decide)⟩

/-- C8: both image URLs are normalized to absolute https URLs: a
protocol-relative source gains the https scheme and a root-relative source
gains the site host, for the portrait and for the full image alike. -/
theorem c8_image_urls_absolute (fetch : String → Option Page) (url : String)
    (pg : Page) (r : OpRecord) (hf : fetch url = some pg)
    (hr : parseOperatorPage fetch url = some r) :
    (pg.piImage = some (some "//example.com/img.png") →
      r.image.portrait = JSVal.str "https://example.com/img.png") ∧
    (pg.piImage = some (some "/wiki/img.png") →
      r.image.portrait = JSVal.str "https://arknights.wiki.gg/wiki/img.png") ∧
    (pg.ogImage = some "//example.com/img.png" →
      r.image.full = JSVal.str "https://example.com/img.png") ∧
    (pg.ogImage = some "/wiki/img.png" →
      r.image.full = JSVal.str "https://arknights.wiki.gg/wiki/img.png") := by
  simp only [parseOperatorPage, hf, Option.some.injEq] at hr
  subst hr
  refine ⟨?_, ?_, ?_, ?_⟩ <;> intro hpi <;> simp only [buildRecord, hpi] <;> decide

/-- Page carrying a protocol-relative portrait and a root-relative full
image. -/
def pageImg : Page :=
  { firstHeading := "A", piTitle := "", ogImage := some "/wiki/img.png"
    piImage := some (some "//example.com/img.png"), doc := emptyDoc }

/-- Fetch that always returns the image page. -/
def fetchImg : String → Option Page := fun _ => some pageImg

/-- The record parsed from the image page at URL u. -/
def recImg : OpRecord :=
  { name := JSVal.str "A", gender := JSVal.str "", rarity := JSVal.str ""
    className := JSVal.str "", archetype := JSVal.str "", faction := JSVal.str ""
    race := JSVal.str "", region := JSVal.str ""
    release := { date_global := JSVal.str "", event_name := JSVal.str "" }
    image := { portrait := JSVal.str "https://example.com/img.png"
               full := JSVal.str "https://arknights.wiki.gg/wiki/img.png" }
    source := JSVal.str "u" }

theorem c8_image_urls_absolute_witness :
    fetchImg "u" = some pageImg ∧ parseOperatorPage fetchImg "u" = some recImg ∧
      ((pageImg.piImage = some (some "//example.com/img.png") →
        recImg.image.portrait = JSVal.str "https://example.com/img.png") ∧
      (pageImg.piImage = some (some "/wiki/img.png") →
        recImg.image.portrait = JSVal.str "https://arknights.wiki.gg/wiki/img.png") ∧
      (pageImg.ogImage = some "//example.com/img.png" →
        recImg.image.full = JSVal.str "https://example.com/img.png") ∧
      (pageImg.ogImage = some "/wiki/img.png" →
        recImg.image.full = JSVal.str "https://arknights.wiki.gg/wiki/img.png")) :=
  ⟨rfl, by decide, c8_image_urls_absolute fetchImg "u" pageImg recImg rfl (by decide)⟩

/-- Page whose release field raw text is the year-only sentence. -/
def page2018 : Page := onePiPage "Op" "Released" "Released in 2018"

/-- Fetch that always returns the year-only release page. -/
def fetch2018 : String → Option Page := fun _ => some page2018

/-- C4 counterexample: on the release raw text of the claim the parser
produces event_name Released in, because stripping the year leaves a
non-empty remainder, so the full-text fallback the claim predicts does not
trigger; in particular event_name differs from the raw text. -/
theorem c4_counterexample :
    (parseOperatorPage fetch2018 "u").map
        (fun r => (r.release.date_global, r.release.event_name)) =
      some (JSVal.str "2018", JSVal.str "Released in") ∧
      (JSVal.str "Released in" ≠ JSVal.str "Released in 2018") := by
  exact ⟨by decide, by decide⟩

/-- C4 amended: for the release raw text Released in 2018 the parser
produces date_global 2018 and event_name Released in (the year is
stripped and the remainder is non-empty, so no fallback applies). -/
theorem c4_amended :
    (parseOperatorPage fetch2018 "u").map
        (fun r => (r.release.date_global, r.release.event_name)) =
      some (JSVal.str "2018", JSVal.str "Released in") := by
  decide

/-- Page whose release field raw text carries an embedded ISO date. -/
def page2020 : Page :=
  onePiPage "Op" "Released" "Released: 2020-05-14 duringIc3 Blazing Summer"

/-- Fetch that always returns the ISO-date release page. -/
def fetch2020 : String → Option Page := fun _ => some page2020

/-- C5 counterexample: removing the date substring cannot insert a space
inside the word duringIc3, so the parser produces event_name
Released: duringIc3 Blazing Summer, not the spaced text of the claim. -/
theorem c5_counterexample :
    (parseOperatorPage fetch2020 "u").map
        (fun r => (r.release.date_global, r.release.event_name)) =
      some (JSVal.str "2020-05-14", JSVal.str "Released: duringIc3 Blazing Summer") ∧
      (JSVal.str "Released: duringIc3 Blazing Summer" ≠
        JSVal.str "Released: during Ic3 Blazing Summer") := by
  exact ⟨by decide, by decide⟩

/-- C5 amended: for the raw text with the embedded ISO date the parser
produces date_global 2020-05-14 and event_name
Released: duringIc3 Blazing Summer (date removed, whitespace tidied). -/
theorem c5_amended :
    (parseOperatorPage fetch2020 "u").map
        (fun r => (r.release.date_global, r.release.event_name)) =
      some (JSVal.str "2020-05-14", JSVal.str "Released: duringIc3 Blazing Summer") := by
  decide

theorem mem_crawl_foldl (accept : Link → Bool) (links : List Link)
    (acc : List String) (P : String → Prop)
    (hacc : ∀ u ∈ acc, P u)
    (hlink : ∀ lnk, accept lnk = true → P (resolveWikiUrl (linkHref lnk))) :
    ∀ u ∈ links.foldl
      (fun a lnk => if accept lnk then setAdd a (resolveWikiUrl (linkHref lnk)) else a)
      acc, P u := by
  induction links generalizing acc with
  | nil => exact hacc
  | cons l rest ih =>
    intro u hu
    simp only [List.foldl_cons] at hu
    refine ih _ ?_ u hu
    intro v hv
    by_cases hl : accept l = true
    · rw [if_pos hl] at hv
      unfold setAdd at hv
      split at hv
      · exact hacc v hv
      · rcases List.mem_append.mp hv with hm | hm
        · exact hacc v hm
        · rcases List.mem_singleton.mp hm with rfl
          exact hlink l hl
    · rw [if_neg hl] at hv
      exact hacc v hv

theorem jsStartsWith_wiki_of_operator (h : String)
    (hw : jsStartsWith h "/wiki/Operator" = true) : jsStartsWith h "/wiki/" = true := by
  unfold jsStartsWith at *
  rw [List.isPrefixOf_iff_prefix] at *
  exact List.IsPrefix.trans (by decide) hw

/-- The property every crawler output URL should satisfy: site origin plus
a colon-free wiki path. -/
def goodUrl (u : String) : Prop :=
  ∃ h2, u = "https://arknights.wiki.gg" ++ h2 ∧ jsStartsWith h2 "/wiki/" = true ∧
    jsIncludes h2 ":" = false

theorem pass1_goodUrl (lnk : Link) (hl : pass1Accept lnk = true) :
    goodUrl (resolveWikiUrl (linkHref lnk)) := by
  cases hh : lnk.href with
  | none => rw [pass1Accept, hh] at hl; exact absurd hl (by simp)
  | some h =>
    rw [pass1Accept, hh] at hl
    rcases Bool.and_eq_true_iff.mp hl with ⟨h1, h2⟩
    refine ⟨h, by rw [linkHref, hh, resolveWikiUrl], jsStartsWith_wiki_of_operator h h1, ?_⟩
    rwa [Bool.not_eq_true'] at h2

theorem pass2_goodUrl (lnk : Link) (hl : pass2Accept lnk = true) :
    goodUrl (resolveWikiUrl (linkHref lnk)) := by
  cases hh : lnk.href with
  | none => rw [pass2Accept, hh] at hl; exact absurd hl (by simp)
  | some h =>
    rw [pass2Accept, hh] at hl
    simp only [Bool.and_eq_true, Bool.not_eq_true'] at hl
    refine ⟨h, by rw [linkHref, hh, resolveWikiUrl], ?_, ?_⟩ <;> tauto

/-- C9 amended: every URL the crawler returns is the site origin followed
by a colon-free wiki path, and the fallback pass accepts a link exactly
when its href is a colon-free wiki path that does not end in Operator or
Operators and its trimmed text is non-empty, shorter than 40 characters
and contains a Latin or Latin-extended letter. -/
theorem c9_fallback_filter (pg : ListingPage) (u : String) (lnk : Link) (h : String) :
    (u ∈ fetchOperatorLinksFromListing pg → goodUrl u) ∧
    (lnk.href = some h →
      (pass2Accept lnk = true ↔
        (jsStartsWith h "/wiki/" = true ∧ jsIncludes h ":" = false ∧
          jsEndsWith h "Operator" = false ∧ jsEndsWith h "Operators" = false ∧
          jsTrim lnk.text ≠ "" ∧ (jsTrim lnk.text).length < 40 ∧
          hasLatinLetter (jsTrim lnk.text) = true))) := by
  constructor
  · intro hu
    unfold fetchOperatorLinksFromListing at hu
    refine mem_crawl_foldl pass2Accept pg.contentLinks _ goodUrl ?_ pass2_goodUrl u hu
    exact mem_crawl_foldl pass1Accept pg.contentLinks [] goodUrl
      (by intro v hv; exact absurd hv (List.not_mem_nil v)) pass1_goodUrl
  · intro hh
    rw [pass2Accept, hh]
    simp only [Bool.and_eq_true, Bool.not_eq_true', matchesOperatorSuffix,
      Bool.or_eq_false_iff, bne_iff_ne, ne_eq, decide_eq_true_eq]
    tauto

/-- The in-content link of the fallback-pass witness. -/
def amiyaLink : Link := { href := some "/wiki/Amiya", text := "Amiya" }

/-- The listing page of the fallback-pass witness. -/
def amiyaListing : ListingPage := { contentLinks := [amiyaLink] }

theorem c9_fallback_filter_witness :
    goodUrl "https://arknights.wiki.gg/wiki/Amiya" ∧
      (pass2Accept amiyaLink = true ↔
        (jsStartsWith "/wiki/Amiya" "/wiki/" = true ∧
          jsIncludes "/wiki/Amiya" ":" = false ∧
          jsEndsWith "/wiki/Amiya" "Operator" = false ∧
          jsEndsWith "/wiki/Amiya" "Operators" = false ∧
          jsTrim amiyaLink.text ≠ "" ∧ (jsTrim amiyaLink.text).length < 40 ∧
          hasLatinLetter (jsTrim amiyaLink.text) = true)) :=
  ⟨(c9_fallback_filter amiyaListing "https://arknights.wiki.gg/wiki/Amiya"
      amiyaLink "/wiki/Amiya").1 (by decide),
    (c9_fallback_filter amiyaListing "https://arknights.wiki.gg/wiki/Amiya"
      amiyaLink "/wiki/Amiya").2 rfl⟩

/-- The fallback acceptance condition exactly as the claim words it: no
namespace separator, path not exactly the plural Operators listing page,
and the text conditions. -/
def claimedFallbackAccept (lnk : Link) : Bool :=
  match lnk.href with
  | some h =>
    jsStartsWith h "/wiki/" && !(jsIncludes h ":") && h != "/wiki/Operators" &&
      (let txt := jsTrim lnk.text
       txt != "" && txt.length < 40 && hasLatinLetter txt)
  | none => false

/-- The link refuting the claimed acceptance condition. -/
def eliteLink : Link := { href := some "/wiki/Elite_Operators", text := "Elite Operators" }

/-- C9 counterexample: a link satisfying every condition of the claim (no
colon, path different from the plural Operators listing page, good text)
is nonetheless rejected by the crawler, because the code excludes every
href ending in Operator or Operators, not only the exact listing page. -/
theorem c9_counterexample :
    claimedFallbackAccept eliteLink = true ∧
      pass2Accept eliteLink = false ∧
      fetchOperatorLinksFromListing { contentLinks := [eliteLink] } = [] := by
  exact ⟨by decide, by decide, by decide⟩

theorem dedupe_foldl_filter (key : JSVal) (hkey : jsTruthy key = true) :
    ∀ (ops acc : List OpRecord),
      (List.foldl dedupeStep acc ops).filter (fun o => o.name == key) =
        acc.filter (fun o => o.name == key) ++
          (if acc.any (fun o => o.name == key) then []
           else (ops.filter (fun o => o.name == key)).take 1) := by
  intro ops
  induction ops with
  | nil =>
    intro acc
    simp only [List.foldl_nil, List.filter_nil, List.take_nil]
    split <;> simp
  | cons o rest ih =>
    intro acc
    rw [List.foldl_cons, ih (dedupeStep acc o)]
    by_cases hpo : o.name = key
    · have ht : jsTruthy o.name = true := by rw [hpo]; exact hkey
      have hpb : (o.name == key) = true := beq_iff_eq.mpr hpo
      cases hany : acc.any (fun p => p.name == o.name) with
      | true =>
        have hstep : dedupeStep acc o = acc := by
          simp [dedupeStep, ht, hany]
        have hanyk : acc.any (fun q => q.name == key) = true := by
          rw [← hpo]; exact hany
        rw [hstep, hanyk]
        simp
      | false =>
        have hstep : dedupeStep acc o = acc ++ [o] := by
          simp [dedupeStep, ht, hany]
        have hanyk : acc.any (fun q => q.name == key) = false := by
          rw [← hpo]; exact hany
        have hanyk2 : (acc ++ [o]).any (fun q => q.name == key) = true := by
          simp [List.any_append, hpb]
        rw [hstep, hanyk2, hanyk]
        simp [List.filter_append, List.filter_cons, hpb]
    · have hpb : (o.name == key) = false := beq_eq_false_iff_ne.mpr hpo
      have hfilter : (o :: rest).filter (fun q => q.name == key) =
          rest.filter (fun q => q.name == key) := by
        simp [List.filter_cons, hpb]
      rw [hfilter]
      have hf2 : (dedupeStep acc o).filter (fun q => q.name == key) =
          acc.filter (fun q => q.name == key) := by
        unfold dedupeStep
        split
        · rfl
        · split
          · rfl
          · simp [List.filter_append, hpb]
      have ha2 : (dedupeStep acc o).any (fun q => q.name == key) =
          acc.any (fun q => q.name == key) := by
        unfold dedupeStep
        split
        · rfl
        · split
          · rfl
          · simp [List.any_append, hpb]
      rw [hf2, ha2]

theorem dedupe_foldl_truthy :
    ∀ (ops acc : List OpRecord), (∀ o ∈ acc, jsTruthy o.name = true) →
      ∀ o ∈ List.foldl dedupeStep acc ops, jsTruthy o.name = true := by
  intro ops
  induction ops with
  | nil =>
    intro acc hacc
    simpa using hacc
  | cons o rest ih =>
    intro acc hacc
    rw [List.foldl_cons]
    refine ih (dedupeStep acc o) ?_
    intro q hq
    unfold dedupeStep at hq
    split at hq
    · exact hacc q hq
    · rename_i hguard
      split at hq
      · exact hacc q hq
      · rcases List.mem_append.mp hq with hm | hm
        · exact hacc q hm
        · rcases List.mem_singleton.mp hm with rfl
          simpa using hguard

theorem dedupeByName_filter (key : JSVal) (hkey : jsTruthy key = true)
    (ops : List OpRecord) :
    (dedupeByName ops).filter (fun o => o.name == key) =
      (ops.filter (fun o => o.name == key)).take 1 := by
  rw [dedupeByName, dedupe_foldl_filter key hkey ops []]
  simp

theorem dedupeByName_truthy (ops : List OpRecord) :
    ∀ o ∈ dedupeByName ops, jsTruthy o.name = true :=
  dedupe_foldl_truthy ops []
    (by intro o ho; exact absurd ho (List.not_mem_nil o))

/-- C2: in the final collection names are unique and the first occurrence
wins: for any non-empty name, the records of the final collection carrying
it are exactly the first record with that name in the URL-sorted parse
order (so at most one), and no record with a falsy name survives. -/
theorem c2_dedupe_first_wins (cmp : String → String → Int)
    (fetch : String → Option Page) (urlSet : List String) (n : String)
    (hn : n ≠ "") :
    (runPipeline cmp fetch urlSet).filter (fun o => o.name == JSVal.str n) =
      ((pipelineOperators fetch urlSet).filter
        (fun o => o.name == JSVal.str n)).take 1 ∧
    ∀ o ∈ runPipeline cmp fetch urlSet, jsTruthy o.name = true := by
  have hkey : jsTruthy (JSVal.str n) = true := by simp [jsTruthy, hn]
  constructor
  · have hperm : (runPipeline cmp fetch urlSet).Perm
        (dedupeByName (pipelineOperators fetch urlSet)) :=
      List.mergeSort_perm _ _
    have hpf := hperm.filter (fun o => o.name == JSVal.str n)
    rw [dedupeByName_filter (JSVal.str n) hkey] at hpf
    cases hfo : (pipelineOperators fetch urlSet).filter
        (fun o => o.name == JSVal.str n) with
    | nil =>
      rw [hfo] at hpf
      simpa using hpf
    | cons r t =>
      rw [hfo] at hpf
      simp only [List.take_succ_cons, List.take_zero] at hpf ⊢
      exact List.perm_singleton.mp hpf
  · intro o ho
    have hmem : o ∈ dedupeByName (pipelineOperators fetch urlSet) := by
      rw [runPipeline] at ho
      exact List.mem_mergeSort.mp ho
    exact dedupeByName_truthy _ o hmem

/-- The comparator used by the concrete witnesses: a consistent locale
comparator instance. -/
def cmp0 : String → String → Int := fun a b => if a ≤ b then 0 else 1

/-- Two pages sharing the heading A, yielding records that collide on
name. -/
def fetchAA : String → Option Page := fun _ => some pageA

theorem c2_dedupe_first_wins_witness :
    ("A" : String) ≠ "" ∧
      ((runPipeline cmp0 fetchAA ["u2", "u1"]).filter
          (fun o => o.name == JSVal.str "A") =
        ((pipelineOperators fetchAA ["u2", "u1"]).filter
          (fun o => o.name == JSVal.str "A")).take 1 ∧
      ∀ o ∈ runPipeline cmp0 fetchAA ["u2", "u1"], jsTruthy o.name = true) :=
  ⟨by decide, c2_dedupe_first_wins cmp0 fetchAA ["u2", "u1"] "A" (by decide)⟩

/-- C3: when cmp is a consistent locale comparator (transitive and total
on the at-most-zero relation, as localeCompare is), the final collection
is pairwise non-decreasing in name under cmp. -/
theorem c3_sorted_by_name (cmp : String → String → Int)
    (fetch : String → Option Page) (urlSet : List String)
    (htrans : ∀ a b c : String, cmp a b ≤ 0 → cmp b c ≤ 0 → cmp a c ≤ 0)
    (htotal : ∀ a b : String, cmp a b ≤ 0 ∨ cmp b a ≤ 0) :
    List.Pairwise
      (fun o q : OpRecord => cmp (nameStr o.name) (nameStr q.name) ≤ 0)
      (runPipeline cmp fetch urlSet) := by
  rw [runPipeline]
  refine List.Pairwise.imp ?_
    (List.sorted_mergeSort ?_ ?_ (dedupeByName (pipelineOperators fetch urlSet)))
  · intro a b hab
    exact of_decide_eq_true hab
  · intro a b c hab hbc
    exact decide_eq_true
      (htrans _ _ _ (of_decide_eq_true hab) (of_decide_eq_true hbc))
  · intro a b
    rcases htotal (nameStr a.name) (nameStr b.name) with h | h
    · simp [decide_eq_true h]
    · simp [decide_eq_true h]

theorem c3_sorted_by_name_witness :
    (∀ a b c : String, cmp0 a b ≤ 0 → cmp0 b c ≤ 0 → cmp0 a c ≤ 0) ∧
      (∀ a b : String, cmp0 a b ≤ 0 ∨ cmp0 b a ≤ 0) ∧
      List.Pairwise
        (fun o q : OpRecord => cmp0 (nameStr o.name) (nameStr q.name) ≤ 0)
        (runPipeline cmp0 fetchAA ["u1", "u2"]) := by
  have htrans : ∀ a b c : String, cmp0 a b ≤ 0 → cmp0 b c ≤ 0 → cmp0 a c ≤ 0 := by
    intro a b c hab hbc
    unfold cmp0 at *
    by_cases h1 : a ≤ b
    · by_cases h2 : b ≤ c
      · rw [if_pos (le_trans h1 h2)]
      · rw [if_neg h2] at hbc
        exact absurd hbc (by decide)
    · rw [if_neg h1] at hab
      exact absurd hab (by decide)
  have htotal : ∀ a b : String, cmp0 a b ≤ 0 ∨ cmp0 b a ≤ 0 := by
    intro a b
    unfold cmp0
    rcases le_total a b with h | h
    · left
      rw [if_pos h]
    · right
      rw [if_pos h]
  exact ⟨htrans, htotal, c3_sorted_by_name cmp0 fetchAA ["u1", "u2"] htrans htotal⟩

theorem perm_pair_cases {α : Type _} {l : List α} {a b : α}
    (hp : l.Perm [a, b]) : l = [a, b] ∨ l = [b, a] := by
  cases l with
  | nil => simpa using hp.length_eq
  | cons x t =>
    cases t with
    | nil => simpa using hp.length_eq
    | cons y t2 =>
      cases t2 with
      | cons z t3 => simpa using hp.length_eq
      | nil =>
        have hx : x ∈ ([a, b] : List α) := hp.mem_iff.mp (by simp)
        rcases (by simpa using hx : x = a ∨ x = b) with rfl | hxb
        · left
          have h2 := hp.cons_inv
          have hy : y = b := by simpa using List.perm_singleton.mp h2
          rw [hy]
        · right
          rw [hxb] at hp
          have h2 := (hp.trans (List.Perm.swap b a [])).cons_inv
          have hy : y = a := by simpa using List.perm_singleton.mp h2
          rw [hxb, hy]

theorem dedupe_pair (a b : OpRecord) (ha : jsTruthy a.name = true)
    (hb : jsTruthy b.name = true) (hab : (a.name == b.name) = false) :
    dedupeByName [a, b] = [a, b] := by
  simp [dedupeByName, dedupeStep, ha, hb, hab]

/-- C7: a fetch failure is caught inside the page parser and surfaces as a
null record; the orchestrator drops the null, so with one failing URL
among three the final collection consists exactly of the two records of
the succeeding URLs (which here carry distinct non-empty names). -/
theorem c7_failure_isolated (cmp : String → String → Int)
    (fetch : String → Option Page) (u1 u2 u3 : String) (r1 r3 : OpRecord)
    (n1 n3 : String) (hf2 : fetch u2 = none)
    (h1 : parseOperatorPage fetch u1 = some r1)
    (h3 : parseOperatorPage fetch u3 = some r3)
    (hn1 : r1.name = JSVal.str n1) (hn3 : r3.name = JSVal.str n3)
    (hne1 : n1 ≠ "") (hne3 : n3 ≠ "") (hdiff : n1 ≠ n3) :
    parseOperatorPage fetch u2 = none ∧
      r1 ∈ runPipeline cmp fetch [u1, u2, u3] ∧
      r3 ∈ runPipeline cmp fetch [u1, u2, u3] ∧
      (runPipeline cmp fetch [u1, u2, u3]).length = 2 := by
  have h2 : parseOperatorPage fetch u2 = none := by
    rw [parseOperatorPage, hf2]
  have ht1 : jsTruthy r1.name = true := by simp [jsTruthy, hn1, hne1]
  have ht3 : jsTruthy r3.name = true := by simp [jsTruthy, hn3, hne3]
  have hb13 : (r1.name == r3.name) = false := by
    simp only [hn1, hn3]
    exact beq_eq_false_iff_ne.mpr (by simpa using hdiff)
  have hb31 : (r3.name == r1.name) = false := by
    simp only [hn1, hn3]
    exact beq_eq_false_iff_ne.mpr (by simpa using (Ne.symm hdiff))
  have hops : (pipelineOperators fetch [u1, u2, u3]).Perm [r1, r3] := by
    have hp : (sortedUrls [u1, u2, u3]).Perm [u1, u2, u3] :=
      List.mergeSort_perm _ _
    have hfm := hp.filterMap (parseOperatorPage fetch)
    rw [pipelineOperators]
    rwa [show List.filterMap (parseOperatorPage fetch) [u1, u2, u3] = [r1, r3] from by
      simp [List.filterMap_cons, h1, h2, h3]] at hfm
  have hlen : (runPipeline cmp fetch [u1, u2, u3]).length =
      (dedupeByName (pipelineOperators fetch [u1, u2, u3])).length := by
    rw [runPipeline]
    exact (List.mergeSort_perm _ _).length_eq
  have hmem : ∀ o : OpRecord, (o ∈ runPipeline cmp fetch [u1, u2, u3] ↔
      o ∈ dedupeByName (pipelineOperators fetch [u1, u2, u3])) := by
    intro o
    rw [runPipeline]
    exact List.mem_mergeSort
  rcases perm_pair_cases hops with he | he
  · have hded : dedupeByName (pipelineOperators fetch [u1, u2, u3]) = [r1, r3] := by
      rw [he]
      exact dedupe_pair r1 r3 ht1 ht3 hb13
    refine ⟨h2, ?_, ?_, ?_⟩
    · rw [hmem r1, hded]
      simp
    · rw [hmem r3, hded]
      simp
    · rw [hlen, hded]
      rfl
  · have hded : dedupeByName (pipelineOperators fetch [u1, u2, u3]) = [r3, r1] := by
      rw [he]
      exact dedupe_pair r3 r1 ht3 ht1 hb31
    refine ⟨h2, ?_, ?_, ?_⟩
    · rw [hmem r1, hded]
      simp
    · rw [hmem r3, hded]
      simp
    · rw [hlen, hded]
      rfl

/-- A second minimal page with heading C. -/
def pageC : Page :=
  { firstHeading := "C", piTitle := "", ogImage := none, piImage := none
    doc := emptyDoc }

/-- Fetch that throws (returns none) on u2 and succeeds elsewhere. -/
def fetch13 : String → Option Page := fun u =>
  if u == "u2" then none else if u == "u1" then some pageA else some pageC

/-- The record parsed from u1 by fetch13. -/
def recU1 : OpRecord :=
  { name := JSVal.str "A", gender := JSVal.str "", rarity := JSVal.str ""
    className := JSVal.str "", archetype := JSVal.str "", faction := JSVal.str ""
    race := JSVal.str "", region := JSVal.str ""
    release := { date_global := JSVal.str "", event_name := JSVal.str "" }
    image := { portrait := JSVal.str "", full := JSVal.str "" }
    source := JSVal.str "u1" }

/-- The record parsed from u3 by fetch13. -/
def recU3 : OpRecord :=
  { name := JSVal.str "C", gender := JSVal.str "", rarity := JSVal.str ""
    className := JSVal.str "", archetype := JSVal.str "", faction := JSVal.str ""
    race := JSVal.str "", region := JSVal.str ""
    release := { date_global := JSVal.str "", event_name := JSVal.str "" }
    image := { portrait := JSVal.str "", full := JSVal.str "" }
    source := JSVal.str "u3" }

theorem c7_failure_isolated_witness :
    fetch13 "u2" = none ∧
      parseOperatorPage fetch13 "u1" = some recU1 ∧
      parseOperatorPage fetch13 "u3" = some recU3 ∧
      (parseOperatorPage fetch13 "u2" = none ∧
        recU1 ∈ runPipeline cmp0 fetch13 ["u1", "u2", "u3"] ∧
        recU3 ∈ runPipeline cmp0 fetch13 ["u1", "u2", "u3"] ∧
        (runPipeline cmp0 fetch13 ["u1", "u2", "u3"]).length = 2) :=
  ⟨by decide, by decide, by decide,
    c7_failure_isolated cmp0 fetch13 "u1" "u2" "u3" recU1 recU3 "A" "C"
      (by decide) (by decide) (by decide) (by decide) (by decide)
      (by decide) (by decide) (by decide)⟩
